import Mathlib

/-!
Verification of the transcript-to-genomic coordinate translator
(`translate-t2g.py`).

The core of the program is `parse_cigar(cigar, qpos, rpos)`: it walks a
CIGAR string, maintaining a query cursor (`result`, starting at 0) and a
reference cursor (`ref_result`, starting at `rpos`), and returns the
reference coordinate corresponding to query coordinate `qpos`.

We embed the program at two levels:

* `parse_cigar_walk` / `mapCigar` — the cursor-walking loop of
  `parse_cigar` (lines 148-166) operating on an already-tokenized list of
  `(length, operator)` pairs, exactly as the spec's Coordinate Mapper.
* `parse_cigar` on strings — the full function including the
  `itertools.groupby`-based tokenization (lines 142-146), which is
  interleaved with the walk; a Python exception (e.g. `int()` on a
  non-digit group, or `StopIteration` when a length has no operator
  group) is modelled as `Option.none`.

The surrounding batch driver (`__main__`, lines 211-231) is embedded for
the order-restoration claim: `build_keys` models the
`{tuple(e): i for i, e in enumerate(tr_list)}` dictionary (later
occurrences overwrite earlier ones) and `restore_order` models
`sorted(queries, key=lambda x: keys.get(tuple(x[:2])))` as a stable merge
sort on that key.

All integers in the claims are non-negative, so cursors, lengths and
positions are embedded as `Nat`.
-/

/-- Alignment match types that consume the query (line 138 of the source). -/
def q_consume : List Char := ['M', 'I', 'S', '=', 'X']

/-- Alignment match types that consume the reference (line 139 of the source). -/
def ref_consume : List Char := ['M', 'D', 'H', '=', 'X']

/-- The cursor-walking loop of `parse_cigar` (source lines 144-167) on an
already-tokenized list of `(length, op)` pairs.  `result` is the query
cursor, `ref_result` the reference cursor.  A token is skipped (state
unchanged) when `result < qpos` fails; otherwise either the whole length
is consumed, or on overshoot a both-consuming op returns early while a
reference-only op adds its full length. -/
def parse_cigar_walk : List (Nat × Char) → Nat → Nat → Nat → Nat
  | [], _, _, ref_result => ref_result
  | (length, op) :: rest, qpos, result, ref_result =>
    if result < qpos then
      if result + length ≤ qpos then
        parse_cigar_walk rest qpos
          (if op ∈ q_consume then result + length else result)
          (if op ∈ ref_consume then ref_result + length else ref_result)
      else
        if op ∈ q_consume ∧ op ∈ ref_consume then
          ref_result + (qpos - result)
        else if op ∈ ref_consume then
          parse_cigar_walk rest qpos result (ref_result + length)
        else
          parse_cigar_walk rest qpos result ref_result
    else
      parse_cigar_walk rest qpos result ref_result

/-- The Coordinate Mapper of the spec: run the walk from query cursor 0
and reference cursor `reference_start`. -/
def mapCigar (tokens : List (Nat × Char)) (query_pos reference_start : Nat) : Nat :=
  parse_cigar_walk tokens query_pos 0 reference_start

/-- The reference cursor never decreases: the walk's value is at least the
current reference cursor. -/
theorem parse_cigar_walk_le (tokens : List (Nat × Char)) (qpos : Nat) :
    ∀ result ref_result, ref_result ≤ parse_cigar_walk tokens qpos result ref_result := by
  induction tokens with
  | nil => intro result ref_result; simp [parse_cigar_walk]
  | cons t rest ih =>
    intro result ref_result
    obtain ⟨length, op⟩ := t
    simp only [parse_cigar_walk]
    split
    · split
      · exact le_trans (by split <;> omega) (ih _ _)
      · split
        · omega
        · split
          · exact le_trans (by omega) (ih _ _)
          · exact ih _ _
    · exact ih _ _

/-- Once the query cursor has reached or passed the target, every
remaining token is skipped and the walk returns the current reference
cursor. -/
theorem parse_cigar_walk_frozen (tokens : List (Nat × Char)) (qpos : Nat) :
    ∀ result ref_result, ¬ result < qpos →
      parse_cigar_walk tokens qpos result ref_result = ref_result := by
  induction tokens with
  | nil => intro result ref_result _; simp [parse_cigar_walk]
  | cons t rest ih =>
    intro result ref_result h
    obtain ⟨length, op⟩ := t
    simp only [parse_cigar_walk]
    rw [if_neg h]
    exact ih _ _ h

/-- C1: boundary-freeze on deletion.  Mapping the token sequence
3M 2D 3M with query position 3 and reference start 100 returns 103: once
the query cursor equals the target, the reference-only 2D token is not
processed. -/
theorem c1_boundary_freeze_deletion :
    mapCigar [(3, 'M'), (2, 'D'), (3, 'M')] 3 100 = 103 := by decide

/-- C3: insertion-overshoot asymmetry.  Mapping 3M 2I 3M with query
position 4 and reference start 100 returns 104: the overshooting
query-only 2I token advances neither cursor and does not terminate the
walk, which continues into the final 3M. -/
theorem c3_insertion_overshoot :
    mapCigar [(3, 'M'), (2, 'I'), (3, 'M')] 4 100 = 104 := by decide

/-- C4: lower-bound invariant.  For every token sequence, query position
and reference start, the mapper returns a value at least the reference
start. -/
theorem c4_lower_bound (tokens : List (Nat × Char)) (query_pos reference_start : Nat) :
    reference_start ≤ mapCigar tokens query_pos reference_start :=
  parse_cigar_walk_le tokens query_pos 0 reference_start

/-- C5: zero query position.  For every token sequence and reference
start, mapping query position 0 returns exactly the reference start. -/
theorem c5_qpos_zero (tokens : List (Nat × Char)) (reference_start : Nat) :
    mapCigar tokens 0 reference_start = reference_start :=
  parse_cigar_walk_frozen tokens 0 0 reference_start (by omega)

/-- C6: pure 1:1 match mapping.  For a single M token of length L and any
query position at most L, the mapper returns reference start plus query
position. -/
theorem c6_pure_match (L reference_start query_pos : Nat) (h : query_pos ≤ L) :
    mapCigar [(L, 'M')] query_pos reference_start = reference_start + query_pos := by
  by_cases h0 : 0 < query_pos
  · simp only [mapCigar, parse_cigar_walk]
    rw [if_pos h0]
    by_cases hL : 0 + L ≤ query_pos
    · rw [if_pos hL]
      rw [if_pos (show ('M' : Char) ∈ ref_consume by decide)]
      omega
    · rw [if_neg hL, if_pos (by exact ⟨by decide, by decide⟩)]
      omega
  · have : query_pos = 0 := by omega
    subst this
    exact c5_qpos_zero _ _

/-- C6 witness: the spec's boundary example, one M token of length 4 at
query position 3. -/
theorem c6_pure_match_witness :
    3 ≤ 4 ∧ mapCigar [(4, 'M')] 3 100 = 100 + 3 :=
  ⟨by decide, c6_pure_match 4 100 3 (by decide)⟩

/-- Substituting the tail of the token list for an equivalent tail (same
walk value from every cursor state) does not change the walk's value,
whatever prefix precedes it. -/
theorem parse_cigar_walk_congr_append {A B : List (Nat × Char)} {qpos : Nat}
    (h : ∀ result ref_result, parse_cigar_walk A qpos result ref_result
        = parse_cigar_walk B qpos result ref_result) :
    ∀ (l1 : List (Nat × Char)) (result ref_result : Nat),
      parse_cigar_walk (l1 ++ A) qpos result ref_result
        = parse_cigar_walk (l1 ++ B) qpos result ref_result := by
  intro l1
  induction l1 with
  | nil => exact h
  | cons t rest ih =>
    intro result ref_result
    obtain ⟨length, op⟩ := t
    simp only [List.cons_append, parse_cigar_walk]
    split
    · split
      · exact ih _ _
      · split
        · rfl
        · split
          · exact ih _ _
          · exact ih _ _
    · exact ih _ _

/-- A zero-length token at the head of the token list leaves both cursors
unchanged. -/
theorem parse_cigar_walk_zero_head (op : Char) (l2 : List (Nat × Char)) (qpos : Nat) :
    ∀ result ref_result, parse_cigar_walk ((0, op) :: l2) qpos result ref_result
      = parse_cigar_walk l2 qpos result ref_result := by
  intro result ref_result
  simp only [parse_cigar_walk]
  split
  · rename_i h
    rw [if_pos (show result + 0 ≤ qpos by omega)]
    simp
  · rfl

/-- C7: a zero-length token is an identity.  Inserting a token of length
0 with any operator at any position in the token sequence does not change
the mapper's result, for every query position and reference start. -/
theorem c7_zero_len_identity (op : Char) (l1 l2 : List (Nat × Char))
    (query_pos reference_start : Nat) :
    mapCigar (l1 ++ (0, op) :: l2) query_pos reference_start
      = mapCigar (l1 ++ l2) query_pos reference_start :=
  parse_cigar_walk_congr_append (parse_cigar_walk_zero_head op l2 query_pos) l1 0 reference_start

/-- A token whose operator consumes neither query nor reference leaves
both cursors unchanged and the walk continues. -/
theorem parse_cigar_walk_noop_head {op : Char} (hq : op ∉ q_consume) (hr : op ∉ ref_consume)
    (length : Nat) (l2 : List (Nat × Char)) (qpos : Nat) :
    ∀ result ref_result, parse_cigar_walk ((length, op) :: l2) qpos result ref_result
      = parse_cigar_walk l2 qpos result ref_result := by
  intro result ref_result
  simp only [parse_cigar_walk]
  rw [if_neg hq, if_neg hr, if_neg (fun hc : op ∈ q_consume ∧ op ∈ ref_consume => hq hc.1)]
  split
  · split
    · rfl
    · rfl
  · rfl

/-- C10: unrecognized operators are silent no-ops.  A token whose
operator letter is outside the classified set raises no error and behaves
exactly like an N token: it advances neither cursor and the walk
continues. -/
theorem c10_unknown_op_noop (op : Char)
    (hop : op ∉ (['M', 'I', 'D', 'N', 'S', 'H', 'P', '=', 'X'] : List Char))
    (length : Nat) (l1 l2 : List (Nat × Char)) (query_pos reference_start : Nat) :
    mapCigar (l1 ++ (length, op) :: l2) query_pos reference_start
      = mapCigar (l1 ++ (length, 'N') :: l2) query_pos reference_start := by
  have hq : op ∉ q_consume := by
    intro h
    apply hop
    simp only [q_consume, List.mem_cons, List.not_mem_nil, or_false] at h
    rcases h with rfl | rfl | rfl | rfl | rfl <;> decide
  have hr : op ∉ ref_consume := by
    intro h
    apply hop
    simp only [ref_consume, List.mem_cons, List.not_mem_nil, or_false] at h
    rcases h with rfl | rfl | rfl | rfl | rfl <;> decide
  refine parse_cigar_walk_congr_append (fun result ref_result => ?_) l1 0 reference_start
  rw [parse_cigar_walk_noop_head hq hr,
    parse_cigar_walk_noop_head (show ('N' : Char) ∉ q_consume by decide)
      (show ('N' : Char) ∉ ref_consume by decide)]

/-- C10 witness: a Z token behaves like an N token inside 3M _ 3M. -/
theorem c10_unknown_op_noop_witness :
    ('Z' ∉ (['M', 'I', 'D', 'N', 'S', 'H', 'P', '=', 'X'] : List Char)) ∧
      mapCigar [(3, 'M'), (2, 'Z'), (3, 'M')] 4 100
        = mapCigar [(3, 'M'), (2, 'N'), (3, 'M')] 4 100 :=
  ⟨by decide, c10_unknown_op_noop 'Z' (by decide) 2 [(3, 'M')] [(3, 'M')] 4 100⟩

/-- C2 counterexample: the mapper is not monotone in the query position.
With tokens 2I 2D and reference start 100, query position 1 maps to 102
(the overshooting insertion does nothing, then the deletion adds 2) but
query position 2 maps to 100 (the insertion consumes the whole target,
freezing the walk before the deletion). -/
theorem c2_monotonicity_cex :
    1 ≤ 2 ∧ mapCigar [(2, 'I'), (2, 'D')] 2 100 < mapCigar [(2, 'I'), (2, 'D')] 1 100 := by
  decide

/-- On token lists with no query-only operator, the walk is monotone in
the target query position, from any pair of equal cursor states. -/
theorem parse_cigar_walk_mono (q1 q2 : Nat) (hq : q1 ≤ q2) :
    ∀ tokens : List (Nat × Char), (∀ t ∈ tokens, t.2 ∉ (['I', 'S'] : List Char)) →
      ∀ result ref_result, parse_cigar_walk tokens q1 result ref_result
        ≤ parse_cigar_walk tokens q2 result ref_result := by
  intro tokens
  induction tokens with
  | nil => intro _ result ref_result; simp [parse_cigar_walk]
  | cons t rest ih =>
    intro hqonly result ref_result
    obtain ⟨length, op⟩ := t
    have hop : op ∉ (['I', 'S'] : List Char) := hqonly (length, op) (List.mem_cons_self _ _)
    have hrest : ∀ t ∈ rest, t.2 ∉ (['I', 'S'] : List Char) :=
      fun t ht => hqonly t (List.mem_cons_of_mem _ ht)
    have key : op ∈ q_consume → op ∈ ref_consume := by
      intro h
      simp only [q_consume, List.mem_cons, List.not_mem_nil, or_false] at h
      rcases h with rfl | rfl | rfl | rfl | rfl <;>
        first
        | decide
        | exact absurd (by decide) hop
    by_cases h1 : result < q1
    · simp only [parse_cigar_walk]
      rw [if_pos h1, if_pos (lt_of_lt_of_le h1 hq)]
      by_cases h2 : result + length ≤ q1
      · rw [if_pos h2, if_pos (le_trans h2 hq)]
        exact ih hrest _ _
      · rw [if_neg h2]
        by_cases hboth : op ∈ q_consume ∧ op ∈ ref_consume
        · rw [if_pos hboth]
          by_cases h2' : result + length ≤ q2
          · rw [if_pos h2']
            refine le_trans ?_ (parse_cigar_walk_le rest q2 _ _)
            rw [if_pos hboth.2]
            omega
          · rw [if_neg h2', if_pos hboth]
            omega
        · have hnq : op ∉ q_consume := fun hqc => hboth ⟨hqc, key hqc⟩
          rw [if_neg hboth]
          by_cases hrc : op ∈ ref_consume
          · rw [if_pos hrc]
            by_cases h2' : result + length ≤ q2
            · rw [if_pos h2', if_neg hnq, if_pos hrc]
              exact ih hrest _ _
            · rw [if_neg h2', if_neg (fun hc => hnq hc.1), if_pos hrc]
              exact ih hrest _ _
          · rw [if_neg hrc]
            by_cases h2' : result + length ≤ q2
            · rw [if_pos h2', if_neg hnq, if_neg hrc]
              exact ih hrest _ _
            · rw [if_neg h2', if_neg (fun hc => hnq hc.1), if_neg hrc]
              exact ih hrest _ _
    · rw [parse_cigar_walk_frozen _ _ _ _ h1]
      exact parse_cigar_walk_le _ _ _ _

/-- C2 amended: for every fixed token sequence containing no query-only
operator (no I and no S token) and fixed reference start, the mapper is
non-decreasing as the query position increases. -/
theorem c2_monotone_no_query_only (tokens : List (Nat × Char))
    (htok : ∀ t ∈ tokens, t.2 ∉ (['I', 'S'] : List Char))
    {q1 q2 : Nat} (hq : q1 ≤ q2) (reference_start : Nat) :
    mapCigar tokens q1 reference_start ≤ mapCigar tokens q2 reference_start :=
  parse_cigar_walk_mono q1 q2 hq tokens htok 0 reference_start

/-- C2 amended witness: 3M 2D with query positions 1 and 3. -/
theorem c2_monotone_no_query_only_witness :
    (∀ t ∈ ([(3, 'M'), (2, 'D')] : List (Nat × Char)), t.2 ∉ (['I', 'S'] : List Char)) ∧
      1 ≤ 3 ∧ mapCigar [(3, 'M'), (2, 'D')] 1 100 ≤ mapCigar [(3, 'M'), (2, 'D')] 3 100 :=
  ⟨by decide, by decide, c2_monotone_no_query_only _ (by decide) (by decide) 100⟩

/-- Helper for the `itertools.groupby` model: extend the current group
while the key of the next character matches the key of the previous one,
otherwise close the group and start a new one. -/
def pyGroupByAux (key : Char → Bool) : List Char → Char → List Char → List (List Char)
  | [], _, acc => [acc.reverse]
  | c :: rest, prev, acc =>
    if key c = key prev then pyGroupByAux key rest c (c :: acc)
    else acc.reverse :: pyGroupByAux key rest c [c]

/-- Model of `itertools.groupby(s, key)` restricted to its use in the
source (line 142): split a character list into maximal runs of characters
with equal key.  Groups are nonempty and concatenate to the input. -/
def pyGroupBy (key : Char → Bool) : List Char → List (List Char)
  | [] => []
  | c :: rest => pyGroupByAux key rest c [c]

/-- Decimal accumulator for a digit run. -/
def digitsToNat : List Char → Nat → Nat
  | [], acc => acc
  | c :: rest, acc => digitsToNat rest (acc * 10 + (c.toNat - '0'.toNat))

/-- Model of Python `int(''.join(group))` at line 145: succeeds exactly
when the group is a nonempty run of decimal digits, otherwise the
exception is modelled as `none`. -/
def parseDigits (g : List Char) : Option Nat :=
  if g ≠ [] ∧ g.all Char.isDigit then some (digitsToNat g 0) else none

/-- The full body of `parse_cigar` (source lines 140-167) on the group
list produced by `groupby`: each iteration parses one digit group (an
`int()` failure is `none`), takes the first character of the following
group as the operator (`StopIteration` when the digit run ends the string
is `none`), and then performs the same cursor walk as
`parse_cigar_walk`.  The early return on a both-consuming overshoot
leaves any later malformed groups unread, exactly as in the source. -/
def walk_groups : List (List Char) → Nat → Nat → Nat → Option Nat
  | [], _, _, ref_result => some ref_result
  | g :: rest, qpos, result, ref_result =>
    match parseDigits g with
    | none => none
    | some length =>
      match rest with
      | [] => none
      | opg :: rest' =>
        match opg with
        | [] => none
        | op :: _ =>
          if result < qpos then
            if result + length ≤ qpos then
              walk_groups rest' qpos
                (if op ∈ q_consume then result + length else result)
                (if op ∈ ref_consume then ref_result + length else ref_result)
            else if op ∈ q_consume ∧ op ∈ ref_consume then
              some (ref_result + (qpos - result))
            else if op ∈ ref_consume then
              walk_groups rest' qpos result (ref_result + length)
            else
              walk_groups rest' qpos result ref_result
          else
            walk_groups rest' qpos result ref_result

/-- String-level `parse_cigar`: tokenization interleaved with the walk;
a Python exception during parsing is `none`. -/
def parse_cigar (cigar : String) (qpos rpos : Nat) : Option Nat :=
  walk_groups (pyGroupBy Char.isDigit cigar.data) qpos 0 rpos

/-- Sanity check of the error channel: a CIGAR string whose first group
is not a digit run fails (Python `int` raises). -/
theorem parse_cigar_malformed_first_group : parse_cigar "M3" 1 100 = none := by rfl

/-- Sanity check of the error channel: a trailing digit run with no
operator fails (Python `StopIteration`). -/
theorem parse_cigar_trailing_digits : parse_cigar "3M5" 5 100 = none := by rfl

/-- Coherence of the two embeddings on a well-formed string. -/
theorem parse_cigar_coherent_ex : parse_cigar "3M2D3M" 3 100 = some (mapCigar [(3, 'M'), (2, 'D'), (3, 'M')] 3 100) := by rfl

/-- C8 counterexample: an empty CIGAR string is not a parse error; the
walk processes no groups and returns the reference start as a mapped
offset. -/
theorem c8_empty_cigar_cex : parse_cigar "" 3 100 = some 100 := by rfl

/-- C8 amended: tokenizing/mapping an empty CIGAR string raises no error;
for every query position and reference start it returns the reference
start unchanged as a successful mapped offset. -/
theorem c8_empty_cigar_amended (qpos rpos : Nat) : parse_cigar "" qpos rpos = some rpos := rfl

/-- Output row of the mapping loop (source line 219):
transcript id, query position, chromosome, mapped genomic position. -/
abbrev MappedRow := String × Nat × String × Nat

/-- Model of the dictionary comprehension at line 227,
`keys = {tuple(e): i for i, e in enumerate(tr_list)}`, as a lookup:
a later occurrence of the same pair overwrites an earlier one, so the
lookup returns the index of the last occurrence (starting from `base`). -/
def build_keys_from : List (String × Nat) → Nat → (String × Nat) → Option Nat
  | [], _, _ => none
  | e :: rest, i, x =>
    match build_keys_from rest (i + 1) x with
    | some j => some j
    | none => if e = x then some i else none

/-- Lookup in the index dictionary built from the whole query list. -/
def build_keys (l : List (String × Nat)) (x : String × Nat) : Option Nat :=
  build_keys_from l 0 x

/-- Body of the mapping loop (source lines 213-219): look up the
transcript's (chromosome, reference start, cigar) triple and produce the
output row with the mapped position.  The reference lookup is modelled at
token level as a total function, i.e. the claim's setting where every
transcript id is present. -/
def mk_row (d : String → String × Nat × List (Nat × Char)) (e : String × Nat) : MappedRow :=
  (e.1, e.2, (d e.1).1, mapCigar (d e.1).2.2 e.2 (d e.1).2.1)

/-- The sort key used at line 228: `keys.get(tuple(x[:2]))` applied to an
output row (the lookup cannot miss for rows produced from the query
list). -/
def row_key (trList : List (String × Nat)) (row : MappedRow) : Nat :=
  (build_keys trList (row.1, row.2.1)).getD 0

/-- Boolean comparison on rows for the restoring sort. -/
def row_le (trList : List (String × Nat)) (a b : MappedRow) : Bool :=
  decide (row_key trList a ≤ row_key trList b)

/-- Model of line 228, `sorted(queries, key=lambda x: keys.get(tuple(x[:2])))`:
Python's `sorted` is a stable sort on the key, embedded as a stable merge
sort. -/
def restore_order (trList : List (String × Nat)) (rows : List MappedRow) : List MappedRow :=
  rows.mergeSort (row_le trList)

/-- A pair absent from the list has no index in the dictionary. -/
theorem build_keys_from_not_mem (x : String × Nat) :
    ∀ (l : List (String × Nat)) (base : Nat), x ∉ l → build_keys_from l base x = none := by
  intro l
  induction l with
  | nil => intro base _; rfl
  | cons e rest ih =>
    intro base hx
    have h1 : build_keys_from rest (base + 1) x = none :=
      ih (base + 1) (fun h => hx (List.mem_cons_of_mem _ h))
    simp only [build_keys_from, h1]
    exact if_neg (fun h => hx (by rw [← h]; exact List.mem_cons_self _ _))

/-- On a list without duplicates, the dictionary maps the element at
position i to exactly base + i. -/
theorem build_keys_from_get :
    ∀ (l : List (String × Nat)), l.Nodup → ∀ (base i : Nat) (h : i < l.length),
      build_keys_from l base l[i] = some (base + i) := by
  intro l
  induction l with
  | nil => intro _ base i h; simp at h
  | cons e rest ih =>
    intro hnd base i h
    cases i with
    | zero =>
      have hx : e ∉ rest := (List.nodup_cons.mp hnd).1
      have h1 : build_keys_from rest (base + 1) e = none :=
        build_keys_from_not_mem e rest (base + 1) hx
      simp [List.getElem_cons_zero, build_keys_from, h1]
    | succ j =>
      have hj : j < rest.length := by simpa using h
      have h1 : build_keys_from rest (base + 1) rest[j] = some (base + 1 + j) :=
        ih (List.nodup_cons.mp hnd).2 (base + 1) j hj
      simp only [List.getElem_cons_succ, build_keys_from, h1]
      congr 1
      omega

/-- On a list without duplicates, the index dictionary recovers each
position. -/
theorem build_keys_get (l : List (String × Nat)) (hnd : l.Nodup) (i : Nat)
    (h : i < l.length) : build_keys l l[i] = some i := by
  have := build_keys_from_get l hnd 0 i h
  simpa [build_keys] using this

/-- C9 amended: order restoration holds when the input query list has no
duplicate (transcript_id, query_pos) pair.  Whatever permutation of the
queries the mapping loop processes, re-sorting the produced rows by the
index dictionary yields exactly the rows of the original queries in
original input order, one row per query. -/
theorem c9_order_restoration_nodup (d : String → String × Nat × List (Nat × Char))
    (trList proc : List (String × Nat)) (hnd : trList.Nodup) (hperm : proc.Perm trList) :
    restore_order trList (proc.map (mk_row d)) = trList.map (mk_row d) := by
  have hkey_mk : ∀ e : String × Nat, row_key trList (mk_row d e) = (build_keys trList e).getD 0 :=
    fun _ => rfl
  have hout_perm : (restore_order trList (proc.map (mk_row d))).Perm (trList.map (mk_row d)) :=
    (List.mergeSort_perm _ _).trans (hperm.map (mk_row d))
  have hmap : (trList.map (mk_row d)).map (row_key trList) = List.range trList.length := by
    apply List.ext_getElem
    · simp
    · intro i h1 h2
      simp only [List.getElem_map, List.getElem_range]
      rw [hkey_mk, build_keys_get trList hnd i (by simpa using h1)]
      rfl
  have hsorted_le : (restore_order trList (proc.map (mk_row d))).Pairwise
      (fun a b => row_key trList a ≤ row_key trList b) := by
    have htrans : ∀ a b c : MappedRow, row_le trList a b → row_le trList b c → row_le trList a c := by
      intro a b c hab hbc
      simp only [row_le, decide_eq_true_eq] at hab hbc ⊢
      omega
    have htotal : ∀ a b : MappedRow, row_le trList a b || row_le trList b a := by
      intro a b
      simp only [row_le, Bool.or_eq_true, decide_eq_true_eq]
      omega
    have h := @List.sorted_mergeSort MappedRow (row_le trList) htrans htotal (proc.map (mk_row d))
    exact h.imp (fun hab => by simpa [row_le] using hab)
  have hnodup : ((restore_order trList (proc.map (mk_row d))).map (row_key trList)).Nodup := by
    have hp : ((restore_order trList (proc.map (mk_row d))).map (row_key trList)).Perm
        (List.range trList.length) := by
      have h := hout_perm.map (row_key trList)
      rwa [hmap] at h
    exact hp.symm.nodup (List.nodup_range _)
  have hne : (restore_order trList (proc.map (mk_row d))).Pairwise
      (fun a b => row_key trList a ≠ row_key trList b) := List.pairwise_map.mp hnodup
  have hstrict_out : (restore_order trList (proc.map (mk_row d))).Sorted
      (fun a b => row_key trList a < row_key trList b) :=
    (hsorted_le.and hne).imp (fun h => lt_of_le_of_ne h.1 h.2)
  have hstrict_target : (trList.map (mk_row d)).Sorted
      (fun a b => row_key trList a < row_key trList b) := by
    apply List.pairwise_iff_getElem.mpr
    intro i j hi hj hij
    simp only [List.getElem_map]
    rw [hkey_mk, hkey_mk, build_keys_get trList hnd i (by simpa using hi),
      build_keys_get trList hnd j (by simpa using hj)]
    simpa using hij
  haveI : IsAntisymm MappedRow (fun a b => row_key trList a < row_key trList b) :=
    ⟨fun a b h1 h2 => absurd (Nat.lt_trans h1 h2) (Nat.lt_irrefl _)⟩
  exact List.eq_of_perm_of_sorted hout_perm hstrict_out hstrict_target

/-- Reference lookup used in the concrete order-restoration instances:
every transcript sits on chr1 at reference start 100 with CIGAR 9M. -/
def d0 : String → String × Nat × List (Nat × Char) := fun _ => ("chr1", 100, [(9, 'M')])

/-- C9 witness: a two-query list without duplicates, processed in swapped
order, is restored to original order. -/
theorem c9_order_restoration_nodup_witness :
    ([("A", 2), ("B", 1)] : List (String × Nat)).Nodup ∧
      restore_order [("A", 2), ("B", 1)]
          (([("B", 1), ("A", 2)] : List (String × Nat)).map (mk_row d0))
        = ([("A", 2), ("B", 1)] : List (String × Nat)).map (mk_row d0) :=
  ⟨by decide, c9_order_restoration_nodup d0 _ _ (by decide) (List.Perm.swap _ _ _)⟩

unseal List.merge List.mergeSort in
/-- C9 counterexample: with the duplicate-containing query list
A 5, B 3, A 5 processed in the sorted order A 5, A 5, B 3 (exactly the
permutation the source applies), the first output line carries query
(B, 3) while the first input line is (A, 5): line i of the output does
not correspond to line i of the query list. -/
theorem c9_order_restoration_cex :
    (([("A", 5), ("A", 5), ("B", 3)] : List (String × Nat)).Perm
        [("A", 5), ("B", 3), ("A", 5)]) ∧
      (restore_order [("A", 5), ("B", 3), ("A", 5)]
            (([("A", 5), ("A", 5), ("B", 3)] : List (String × Nat)).map (mk_row d0))).map
          (fun r => (r.1, r.2.1))
        ≠ [("A", 5), ("B", 3), ("A", 5)] := by
  constructor
  · decide
  · decide
